import Mathlib

/-!
Verification of the gap-analysis engine (`backend/gap_analysis.py`).

The development shallowly embeds the deterministic core of the engine:
prices and lexical scores are modelled as exact rationals (`ℚ`), embedding
vectors and cosine similarity over the reals (`ℝ`), Python strings as Lean
`String`s with hand-rolled helpers mirroring the semantics of the Python
string methods actually used by the source (`strip`, `split`, `replace`,
`lower`, `join`).  External capabilities (the OpenAI embedding endpoint and
the two chat completions) are modelled as function parameters respectively
omitted fields: no claim depends on their outputs beyond shape.
Python's `round(x, n)` is modelled by `roundTo`, which rounds half away
from zero; the two agree at every input whose scaled value is not an exact
half-integer, and no statement below depends on tie behaviour.
-/

namespace GapAnalysis

/-! ## Python string primitives -/

/-- Characters of a string, as a list. -/
def chars (s : String) : List Char := s.toList

/-- Rebuild a string from characters. -/
def ofChars (cs : List Char) : String := ⟨cs⟩

/-- Python `str.strip()` on a character list: drop whitespace at both ends. -/
def trimChars (cs : List Char) : List Char :=
  ((cs.dropWhile Char.isWhitespace).reverse.dropWhile Char.isWhitespace).reverse

/-- Python `str.strip()`. -/
def pyStrip (s : String) : String := ofChars (trimChars (chars s))

/-- Python `str.strip(charset)` on a character list: drop the given characters
at both ends. -/
def stripCharsOf (set : List Char) (cs : List Char) : List Char :=
  ((cs.dropWhile (· ∈ set)).reverse.dropWhile (· ∈ set)).reverse

/-- Python `str.strip(charset)`. -/
def pyStripSet (set : List Char) (s : String) : String :=
  ofChars (stripCharsOf set (chars s))

/-- Python `str.lower()` (ASCII case folding suffices for the source's data). -/
def pyLower (s : String) : String := ofChars ((chars s).map Char.toLower)

/-- Python `str.split()` with no argument: split on whitespace runs,
dropping empty fragments. -/
def pySplitWS (s : String) : List String :=
  ((chars s).splitOnP Char.isWhitespace).map ofChars |>.filter (· ≠ "")

/-- One pass of Python `str.replace`: replace every non-overlapping occurrence
of `pat` (non-empty) left to right.  The fuel argument (any bound on the
input length) makes the recursion structural, so that terms reduce in the
kernel; each step consumes at least one input character. -/
def replaceChars (pat repl : List Char) : ℕ → List Char → List Char
  | _, [] => []
  | 0, cs => cs
  | fuel + 1, c :: rest =>
    if pat ≠ [] ∧ pat.isPrefixOf (c :: rest) then
      repl ++ replaceChars pat repl fuel ((c :: rest).drop pat.length)
    else
      c :: replaceChars pat repl fuel rest

/-- Python `str.replace(pat, repl)`. -/
def pyReplace (s pat repl : String) : String :=
  ofChars (replaceChars (chars pat) (chars repl) (chars s).length (chars s))

/-- Python `sep.join(parts)`. -/
def pyJoin (sep : String) : List String → String
  | [] => ""
  | x :: xs => xs.foldl (fun acc y => acc ++ sep ++ y) x

/-- Python truthiness-based `a or b` on strings. -/
def pyOrS (a b : String) : String := if a = "" then b else a

/-- Python `a or b` where `a` is an optional string (`None` and `""` are
falsy). -/
def pyOrOpt (a b : Option String) : Option String :=
  match a with
  | none => b
  | some s => if s = "" then b else some s

/-- First truthy value of a chain `x₁ or x₂ or ... or xₙ` of optional
strings, `none` when all are falsy. -/
def firstTruthy : List (Option String) → Option String
  | [] => none
  | none :: rest => firstTruthy rest
  | some s :: rest => if s = "" then firstTruthy rest else some s

/-! ## Numeric helpers

Rational arithmetic is written in explicit numerator/denominator form
(`Rat.divInt`) rather than through the field operations of `ℚ`, so that
every value a theorem evaluates reduces inside the kernel; the bridge
lemmas `qadd_eq`, `qmul_eq`, `qdiv_eq`, `qdivNat_eq` and `roundHalfUp_eq`
below prove these forms equal to the textbook operations, so the
definitions remain faithful embeddings of the source's float arithmetic. -/

/-- Exact sum of two rationals in numerator/denominator form (`= a + b`). -/
def qadd (a b : ℚ) : ℚ := Rat.divInt (a.num * b.den + b.num * a.den) (a.den * b.den)

/-- Exact product of two rationals in numerator/denominator form (`= a * b`). -/
def qmul (a b : ℚ) : ℚ := Rat.divInt (a.num * b.num) (a.den * b.den)

/-- Exact quotient of two rationals in numerator/denominator form (`= a / b`,
with the Lean convention `a / 0 = 0`). -/
def qdiv (a b : ℚ) : ℚ := Rat.divInt (a.num * b.den) (a.den * b.num)

/-- Exact quotient of two naturals as a rational (`= (m : ℚ) / n`). -/
def qdivNat (m n : ℕ) : ℚ := Rat.divInt m n

/-- Sum of a list of rationals (`= l.sum`). -/
def qsum (l : List ℚ) : ℚ := l.foldr qadd 0

/-- Round half away from zero to an integer (`= round x`, the rounding mode
of Mathlib's `round`; agrees with Python's banker rounding away from exact
ties, see the file comment). -/
def roundHalfUp (x : ℚ) : ℤ := (2 * x.num + x.den).fdiv (2 * x.den)

/-- Python `round(x, d)` on exact rationals (modulo tie behaviour, see the
file comment): round `x` to `d` decimal places. -/
def roundTo (d : ℕ) (x : ℚ) : ℚ :=
  Rat.divInt (roundHalfUp (Rat.divInt (x.num * 10 ^ d) x.den)) (10 ^ d)

/-- Numeric value of a digit list (most significant first). -/
def digitsToNat (cs : List Char) : ℕ :=
  cs.foldl (fun acc c => 10 * acc + c.toNat - '0'.toNat) 0

/-- Parse an optionally signed decimal digit string (sign, magnitude). -/
def parseSignedNat (cs : List Char) : Option (Int × ℕ) :=
  match cs with
  | '+' :: ds => if ds ≠ [] ∧ ds.all Char.isDigit then some (1, digitsToNat ds) else none
  | '-' :: ds => if ds ≠ [] ∧ ds.all Char.isDigit then some (-1, digitsToNat ds) else none
  | ds => if ds ≠ [] ∧ ds.all Char.isDigit then some (1, digitsToNat ds) else none

/-- Parse the mantissa part of a Python float literal:
`digits [. digits?] | . digits`, returning its exact rational value
`intPart + fracPart / 10 ^ fracDigits` in numerator/denominator form. -/
def parseMantissa (cs : List Char) : Option ℚ :=
  let intPart := cs.takeWhile Char.isDigit
  let rest := cs.dropWhile Char.isDigit
  match rest with
  | [] => if intPart ≠ [] then some (digitsToNat intPart : ℚ) else none
  | '.' :: frac =>
    if frac.all Char.isDigit ∧ (intPart ≠ [] ∨ frac ≠ []) then
      some (Rat.divInt (digitsToNat intPart * 10 ^ frac.length + digitsToNat frac)
        (10 ^ frac.length))
    else none
  | _ => none

/-- Model of Python `float(token)` on decimal literals: optional sign,
mantissa, optional exponent; the result is `sign * m * 10 ^ exponent`, in
numerator/denominator form.  Inputs outside this grammar (the only forms
occurring in price strings) yield `none`, as `float` raises `ValueError`. -/
def parseFloat (s : String) : Option ℚ :=
  let cs := chars s
  let (sign, cs) : Int × List Char :=
    match cs with
    | '+' :: r => (1, r)
    | '-' :: r => (-1, r)
    | r => (1, r)
  let mant := cs.takeWhile (fun c => c ≠ 'e' ∧ c ≠ 'E')
  let expPart := cs.dropWhile (fun c => c ≠ 'e' ∧ c ≠ 'E')
  match parseMantissa mant with
  | none => none
  | some m =>
    match expPart with
    | [] => some (Rat.divInt (sign * m.num) m.den)
    | _ :: es =>
      match parseSignedNat es with
      | none => none
      | some (1, e) => some (Rat.divInt (sign * m.num * 10 ^ e) m.den)
      | some (_, e) => some (Rat.divInt (sign * m.num) (m.den * 10 ^ e))

/-! ## Price parsing (`_parse_price`, gap_analysis.py lines 141-156) -/

/-- `_parse_price`: strip the known currency tokens and symbols, take the
first whitespace-delimited token, parse it as a float; `none` on any
failure.  Mirrors the source statement for statement. -/
def _parse_price (price : Option String) : Option ℚ :=
  match price with
  | none => none
  | some p =>
    if p = "" then none
    else
      let s := pyStrip p
      let s := pyReplace s "From" ""
      let s := pyReplace s "from" ""
      let s := pyReplace s "+" ""
      let s := pyReplace s "$" ""
      let s := pyReplace s "€" ""
      let s := pyReplace s "£" ""
      let s := pyReplace s "L.L" ""
      let s := pyReplace s "LL" ""
      let s := pyReplace s "LBP" ""
      let s := pyStrip s
      if s = "" then none
      else
        match pySplitWS s with
        | [] => none
        | token :: _ => parseFloat token

/-! ## Cosine similarity (`_cosine`, lines 98-102)

Embedding vectors are lists of reals; `np.dot` on two equal-length 1-D
arrays is the pairwise product sum, `np.linalg.norm` the square root of the
self dot product. -/

/-- An embedding vector. -/
abbrev Vec := List ℝ

/-- `np.dot` on 1-D arrays. -/
def dotProduct : Vec → Vec → ℝ
  | [], _ => 0
  | _, [] => 0
  | x :: xs, y :: ys => x * y + dotProduct xs ys

/-- `np.linalg.norm` on a 1-D array. -/
noncomputable def vecNorm (a : Vec) : ℝ := Real.sqrt (dotProduct a a)

open Classical in
/-- `_cosine`: `dot(a,b) / (norm a * norm b)`, defined as `0.0` when the
denominator is zero. -/
noncomputable def _cosine (a b : Vec) : ℝ :=
  let denom := vecNorm a * vecNorm b
  if denom = 0 then 0 else dotProduct a b / denom

/-! ## Input records

Python dicts arriving from the HTTP layer are modelled as structures of
optional fields; `none` stands for an absent key.  Only the keys the source
reads are modelled. -/

/-- One product dict inside a business's `products` list. -/
structure InputProduct where
  name : Option String := none
  description : Option String := none
  keywords : Option (List String) := none
  pricing : Option String := none
  price : Option String := none

/-- One business dict of the `businesses` argument. -/
structure InputBusiness where
  name : Option String := none
  company_name : Option String := none
  strapline : Option String := none
  audience : Option String := none
  products : List InputProduct := []

/-- The `target_audience` field of a raw trend record: absent, a string, or
a list of strings. -/
inductive TargetAudience where
  | absent : TargetAudience
  | str : String → TargetAudience
  | items : List String → TargetAudience

/-- A flat raw trend dict (the keys read by `_normalize_trend_record` and
`_simple_trend_alignment`). -/
structure RawTrendRec where
  trend : Option String := none
  title : Option String := none
  core_concept : Option String := none
  industry : Option String := none
  name : Option String := none
  description : Option String := none
  business_value : Option String := none
  target_audience : TargetAudience := .absent
  domain : Option String := none
  keywords : Option (List String) := none
  semantic_keywords : Option (List String) := none
  products_services : Option (List String) := none
  relevant_products : Option (List String) := none
  relevant_products_services : Option (List String) := none
  relevant_products_or_services : Option (List String) := none

/-- A top-level element of the `trends` argument: a flat record, possibly
carrying a `results` sub-list wrapper. -/
structure RawTrend extends RawTrendRec where
  results : Option (List RawTrendRec) := none

/-! ## Product flattening (`_flatten_products`, lines 122-138) -/

/-- One element of the list `_flatten_products` returns. -/
structure FlatProduct where
  business : String
  name : String
  description : String
  keywords : List String
  pricing_raw : Option String
  price_numeric : Option ℚ

/-- `_flatten_products`: flatten every product of every business,
attaching the owning business name (`name` or `company_name` or
`"Unknown Business"`) and the parsed price. -/
def _flatten_products (businesses : List InputBusiness) : List FlatProduct :=
  businesses.flatMap fun biz =>
    let biz_name := (firstTruthy [biz.name, biz.company_name]).getD "Unknown Business"
    biz.products.map fun product =>
      let price_raw := pyOrOpt product.pricing product.price
      { business := biz_name
        name := pyStrip (product.name.getD "")
        description := pyStrip (product.description.getD "")
        keywords := product.keywords.getD []
        pricing_raw := price_raw
        price_numeric := _parse_price price_raw }

/-! ## Vector preparation (`_prepare_product_vectors`, lines 159-185;
`_prepare_trend_vectors`, lines 256-283)

The external embedding capability (`_embed`) is a function parameter
`embed : List String → List Vec`; the source zips its output positionally
against the prepared rows. -/

/-- `ProductVector` (dataclass, lines 105-110). -/
structure ProductVector where
  business : String
  product : String
  description : String
  vector : Vec

/-- `TrendVector` (dataclass, lines 113-119). -/
structure TrendVector where
  name : String
  insight : String
  evidence : String
  impact : String
  vector : Vec

/-- A row of `_prepare_product_vectors` before embedding:
(business name, product name, product description, embedding text). -/
structure ProductRow where
  business : String
  product : String
  description : String
  text : String

/-- Python `" | ".join(filter(None, parts))` over optional parts: drop
absent and empty entries, join the rest with a pipe. -/
def joinPipe (parts : List (Option String)) : String :=
  pyJoin " | " (parts.filterMap fun p => match p with
    | none => none
    | some s => if s = "" then none else some s)

/-- The row list of `_prepare_product_vectors` (its first loop). -/
def productRows (businesses : List InputBusiness) : List ProductRow :=
  businesses.flatMap fun biz =>
    biz.products.filterMap fun product =>
      let text := joinPipe [product.name, product.description, biz.strapline, biz.audience]
      if text = "" then none
      else some
        { business := biz.name.getD "Unknown Business"
          product := product.name.getD "Unnamed"
          description := product.description.getD ""
          text := text }

/-- `_prepare_product_vectors`: embed the non-empty product texts and zip
the vectors back onto the rows. -/
def _prepare_product_vectors (embed : List String → List Vec)
    (businesses : List InputBusiness) : List ProductVector :=
  let rows := productRows businesses
  let texts := rows.map (·.text)
  let vectors := if texts = [] then [] else embed texts
  (rows.zip vectors).map fun rv =>
    { business := rv.1.business
      product := rv.1.product
      description := rv.1.description
      vector := rv.2 }

/-! ## Trend normalization (`_normalize_trend_record`, lines 188-238;
`_flatten_trend_records`, lines 241-253) -/

/-- A normalized trend record (the dict `_normalize_trend_record` returns). -/
structure TrendRecord where
  trend : String
  description : String
  keywords : List String

/-- The candidate keyword fields of a raw trend record, in source order. -/
def rawKeywordFields (raw : RawTrendRec) : List (Option (List String)) :=
  [raw.keywords, raw.semantic_keywords, raw.products_services,
   raw.relevant_products, raw.relevant_products_services,
   raw.relevant_products_or_services]

/-- `_normalize_trend_record`: pick the first truthy title among
`trend`/`title`/`core_concept`/`industry`/`name` (`none` if all are falsy),
assemble the description from the optional descriptive fields, and collect
the keyword candidates (stripped, empties dropped, duplicates kept). -/
def _normalize_trend_record (raw : RawTrendRec) : Option TrendRecord :=
  match firstTruthy [raw.trend, raw.title, raw.core_concept, raw.industry, raw.name] with
  | none => none
  | some title =>
    let parts₁ : List String :=
      [raw.description, raw.business_value].filterMap fun value =>
        match value with
        | some v => if pyStrip v ≠ "" then some (pyStrip v) else none
        | none => none
    let parts₂ : List String :=
      match raw.core_concept with
      | some c => if c ≠ "" ∧ c ≠ title then [c] else []
      | none => []
    let parts₃ : List String :=
      match raw.target_audience with
      | .items l =>
        if l ≠ [] then
          let audience := pyJoin ", " ((l.map pyStrip).filter (· ≠ ""))
          if audience ≠ "" then ["Audience: " ++ audience] else []
        else []
      | .str t => if pyStrip t ≠ "" then ["Audience: " ++ pyStrip t] else []
      | .absent => []
    let parts₄ : List String :=
      match raw.domain with
      | some d =>
        if pyStrip d ≠ "" ∧ pyLower d ≠ "unknown" then ["Domain: " ++ pyStrip d] else []
      | none => []
    let raw_keywords : List String := (rawKeywordFields raw).flatMap (·.getD [])
    let normalized_keywords : List String := (raw_keywords.map pyStrip).filter (· ≠ "")
    some
      { trend := title
        description := pyStrip (pyJoin " " (parts₁ ++ parts₂ ++ parts₃ ++ parts₄))
        keywords := normalized_keywords }

/-- `_flatten_trend_records`: records carrying a `results` list contribute
their normalized children, all others their own normalization. -/
def _flatten_trend_records (trends : List RawTrend) : List TrendRecord :=
  trends.flatMap fun raw =>
    match raw.results with
    | some children => children.filterMap _normalize_trend_record
    | none => (_normalize_trend_record raw.toRawTrendRec).toList

/-- A row of `_prepare_trend_vectors` before embedding. -/
structure TrendRow where
  name : String
  description : String
  keywords : List String
  text : String

/-- The row list of `_prepare_trend_vectors` (its first loop). -/
def trendRows (trends : List RawTrend) : List TrendRow :=
  (_flatten_trend_records trends).filterMap fun entry =>
    let text := joinPipe [some entry.trend, some entry.description,
      some (pyJoin ", " entry.keywords)]
    if entry.trend = "" ∨ text = "" then none
    else some { name := entry.trend, description := entry.description,
                keywords := entry.keywords, text := text }

/-- `_prepare_trend_vectors`: embed the non-empty trend texts and zip the
vectors back onto the rows. -/
def _prepare_trend_vectors (embed : List String → List Vec)
    (trends : List RawTrend) : List TrendVector :=
  let rows := trendRows trends
  let texts := rows.map (·.text)
  let vectors := if texts = [] then [] else embed texts
  (rows.zip vectors).map fun rv =>
    { name := rv.1.name
      insight := rv.1.description
      evidence := pyJoin ", " rv.1.keywords
      impact := ""
      vector := rv.2 }

/-! ## Pricing analysis (`_pricing_analysis`, lines 298-330) -/

/-- Python `int(x)` on a nonnegative float/rational: truncate toward zero. -/
def pyInt (x : ℚ) : ℤ := x.num.tdiv x.den

/-- Stable ascending insertion (Python `list.sort` is ascending and stable;
for rationals stability is vacuous). -/
def insertAsc (x : ℚ) : List ℚ → List ℚ
  | [] => [x]
  | y :: ys => if x ≤ y then x :: y :: ys else y :: insertAsc x ys

/-- Python `list.sort()` on rationals. -/
def sortAsc (l : List ℚ) : List ℚ := l.foldr insertAsc []

/-- The inner `quantile` closure: `None` on an empty list, otherwise the
element at index `int(q * (len(prices) - 1))` of the (already sorted)
price list — nearest rank, no interpolation. -/
def quantile (prices : List ℚ) (q : ℚ) : Option ℚ :=
  if prices = [] then none
  else prices.get? (pyInt (qmul q ((prices.length - 1 : ℕ) : ℚ))).toNat

/-- The `{low, mid, high}` bucket counts of `_pricing_analysis`. -/
structure PriceBuckets where
  low : ℕ
  mid : ℕ
  high : ℕ

/-- The dict `_pricing_analysis` returns; `has_pricing = false` leaves every
other key absent, as in the source. -/
structure PricingReport where
  has_pricing : Bool
  avg_price : Option ℚ := none
  min_price : Option ℚ := none
  max_price : Option ℚ := none
  q1 : Option ℚ := none
  q3 : Option ℚ := none
  price_buckets : Option PriceBuckets := none

/-- `_pricing_analysis`: collect the parsed prices, and if any exist sort
them and report rounded mean/min/max/quartiles plus quartile-based bucket
counts. -/
def _pricing_analysis (flat_products : List FlatProduct) : PricingReport :=
  let prices := flat_products.filterMap (·.price_numeric)
  if prices = [] then { has_pricing := false }
  else
    let prices := sortAsc prices
    let avg_price := qdiv (qsum prices) (prices.length : ℚ)
    let q1 := quantile prices (Rat.divInt 1 4)
    let q3 := quantile prices (Rat.divInt 3 4)
    let bump := fun (b : PriceBuckets) (value : ℚ) =>
      if (match q1 with | some a => decide (value ≤ a) | none => false) then
        { b with low := b.low + 1 }
      else if (match q3 with | some c => decide (value ≥ c) | none => false) then
        { b with high := b.high + 1 }
      else
        { b with mid := b.mid + 1 }
    { has_pricing := true
      avg_price := some (roundTo 2 avg_price)
      min_price := some (roundTo 2 (prices.headD 0))
      max_price := some (roundTo 2 (prices.getLastD 0))
      q1 := q1.map (roundTo 2)
      q3 := q3.map (roundTo 2)
      price_buckets := some (prices.foldl bump ⟨0, 0, 0⟩) }

/-! ## Lexical trend alignment (`_simple_trend_alignment`, lines 384-420) -/

/-- The punctuation set of the inner `tokenize` (`" ,.;:!?\x22\x27()"`). -/
def stripSet : List Char := [' ', ',', '.', ';', ':', '!', '?', '"', '\'', '(', ')']

/-- The inner `tokenize`: whitespace-split, keep tokens that are non-empty
after a plain strip, then strip the punctuation set and lowercase.  A token
consisting only of punctuation becomes the empty string but is kept. -/
def tokenize (text : String) : List String :=
  ((pySplitWS text).filter fun token => pyStrip token ≠ "").map
    fun token => pyLower (pyStripSet stripSet token)

/-- The catalog vocabulary: every token of every product name and product
keyword, with multiplicity (the source keeps counts; only count-positivity
is ever read). -/
def catalogTokenList (flat_products : List FlatProduct) : List String :=
  flat_products.flatMap fun product =>
    tokenize product.name ++ product.keywords.flatMap fun keyword => tokenize keyword

/-- One entry of the `_simple_trend_alignment` result
(`0.7 = Rat.divInt 7 10` and `0.4 = Rat.divInt 4 10`, written in
numerator/denominator form for kernel reducibility). -/
structure AlignmentEntry where
  trend : String
  coverage_score : ℚ
  matched_tokens : List String
  status : String

/-- `_simple_trend_alignment`: per raw trend with a truthy label and a
non-empty token list, the fraction of its tokens present in the catalog
vocabulary, classified covered / weak_coverage / gap at 0.7 / 0.4. -/
def _simple_trend_alignment (flat_products : List FlatProduct)
    (trends : List RawTrend) : List AlignmentEntry :=
  let catalog_tokens := catalogTokenList flat_products
  trends.filterMap fun trend =>
    match pyOrOpt trend.trend trend.name with
    | none => none
    | some label =>
      if label = "" then none
      else
        let tokens := tokenize (label ++ " " ++ pyJoin " " (trend.keywords.getD []))
        if tokens = [] then none
        else
          let matched := tokens.filter fun token => catalog_tokens.count token ≠ 0
          let normalized := qdivNat matched.length tokens.length
          let status :=
            if normalized ≥ Rat.divInt 7 10 then "covered"
            else if normalized ≥ Rat.divInt 4 10 then "weak_coverage"
            else "gap"
          some { trend := label
                 coverage_score := roundTo 2 normalized
                 matched_tokens := matched
                 status := status }

/-! ## Threshold classification (`_categorize`, lines 438-443;
`SIMILARITY_THRESHOLDS`, lines 20-23) -/

/-- The two classification thresholds (env-configurable in the source;
modelled as an explicit parameter). -/
structure SimilarityThresholds where
  covered : ℝ
  weak : ℝ

/-- The default configuration: `GAP_THRESHOLD_COVERED = 0.65`,
`GAP_THRESHOLD_WEAK = 0.4`. -/
noncomputable def SIMILARITY_THRESHOLDS : SimilarityThresholds := ⟨0.65, 0.4⟩

open Classical in
/-- `_categorize`: covered at or above the covered threshold, weak at or
above the weak threshold, gap below both. -/
noncomputable def _categorize (thresholds : SimilarityThresholds) (score : ℝ) : String :=
  if score ≥ thresholds.covered then "covered"
  else if score ≥ thresholds.weak then "weak"
  else "gap"

/-! ## The similarity loop of `run_gap_analysis` (lines 659-695) -/

/-- One row of the similarity map. -/
structure SimilarityEntry where
  trend : String
  trend_summary : String
  best_match_product : String
  business : String
  similarity : ℝ
  category : String
  keywords : List String
  product_summary : String

/-- The three coverage bucket lists. -/
structure CoverageBuckets where
  covered : List SimilarityEntry := []
  weak : List SimilarityEntry := []
  gap : List SimilarityEntry := []

/-- `round(score, 4)` over the reals. -/
noncomputable def roundToR (d : ℕ) (x : ℝ) : ℝ :=
  ((round (x * 10 ^ d) : ℤ) : ℝ) / 10 ^ d

open Classical in
/-- One step of the inner product scan: the running best `(product, score)`
pair is replaced only on a strictly greater score (`score > best[1]`), so
the first product attaining the maximum wins. -/
noncomputable def bestStep (trend : TrendVector)
    (best : Option (ProductVector × ℝ)) (product : ProductVector) :
    Option (ProductVector × ℝ) :=
  let score := _cosine trend.vector product.vector
  match best with
  | none => some (product, score)
  | some (_, bs) => if score > bs then some (product, score) else best

/-- The inner product scan of the similarity loop. -/
noncomputable def bestMatch (trend : TrendVector)
    (product_vectors : List ProductVector) : Option (ProductVector × ℝ) :=
  product_vectors.foldl (bestStep trend) none

/-- The entry dict built for a trend and its best product (lines 684-693);
`keywords` is the literal empty list of the source. -/
noncomputable def mkEntry (thresholds : SimilarityThresholds) (trend : TrendVector)
    (product : ProductVector) (score : ℝ) : SimilarityEntry :=
  { trend := trend.name
    trend_summary := pyOrS (pyOrS trend.impact trend.insight) trend.evidence
    best_match_product := product.product
    business := product.business
    similarity := roundToR 4 score
    category := _categorize thresholds score
    keywords := []
    product_summary := product.description }

/-- `coverage_buckets[category].append(entry)`; `_categorize` only ever
produces the three keys, so the final branch is exactly the gap case. -/
def addEntry (buckets : CoverageBuckets) (entry : SimilarityEntry) : CoverageBuckets :=
  if entry.category = "covered" then { buckets with covered := buckets.covered ++ [entry] }
  else if entry.category = "weak" then { buckets with weak := buckets.weak ++ [entry] }
  else { buckets with gap := buckets.gap ++ [entry] }

/-- The body of the similarity loop for one trend: compute its best
product match (skipping the trend when there is none, i.e. when the
product list is empty) and append the entry to the similarity map and to
its category bucket. -/
noncomputable def passStep (thresholds : SimilarityThresholds)
    (product_vectors : List ProductVector)
    (acc : List SimilarityEntry × CoverageBuckets) (trend : TrendVector) :
    List SimilarityEntry × CoverageBuckets :=
  match bestMatch trend product_vectors with
  | none => acc
  | some (product, score) =>
    let entry := mkEntry thresholds trend product score
    (acc.1 ++ [entry], addEntry acc.2 entry)

/-- The whole similarity loop: one pass over the trend vectors. -/
noncomputable def similarityPass (thresholds : SimilarityThresholds)
    (trend_vectors : List TrendVector) (product_vectors : List ProductVector) :
    List SimilarityEntry × CoverageBuckets :=
  trend_vectors.foldl (passStep thresholds product_vectors) ([], {})

/-! ## Aggregation (lines 697-742) -/

/-- One `{count, percent}` cell of `coverage_summary`. -/
structure CoverageStat where
  count : ℕ
  percent : ℚ

/-- The `coverage_summary` dict. -/
structure CoverageSummary where
  covered : CoverageStat
  weak : CoverageStat
  gap : CoverageStat

/-- `{"count": count, "percent": round(count / total * 100, 1)}`. -/
def coverageStat (count total : ℕ) : CoverageStat :=
  ⟨count, roundTo 1 (qmul (qdivNat count total) 100)⟩

/-- `coverage_summary` from the buckets; `total = sum(...) or 1`. -/
def coverageSummaryOf (buckets : CoverageBuckets) : CoverageSummary :=
  let total := buckets.covered.length + buckets.weak.length + buckets.gap.length
  let total := if total = 0 then 1 else total
  ⟨coverageStat buckets.covered.length total,
   coverageStat buckets.weak.length total,
   coverageStat buckets.gap.length total⟩

/-- The distinct values of a list in first-seen order (a `Counter`'s key
insertion order). -/
def firstSeen (l : List String) : List String :=
  l.foldl (fun acc k => if k ∈ acc then acc else acc ++ [k]) []

/-- Stable insertion into a count-descending list (ties keep the earlier
element first, as Python's stable `sorted(..., reverse=True)` does). -/
def insertByCountDesc (x : String × ℕ) : List (String × ℕ) → List (String × ℕ)
  | [] => [x]
  | y :: ys => if y.2 > x.2 then y :: insertByCountDesc x ys else x :: y :: ys

/-- `Counter(items).most_common(n)`. -/
def mostCommon (n : ℕ) (items : List String) : List (String × ℕ) :=
  (((firstSeen items).map fun k => (k, items.count k)).foldr insertByCountDesc []).take n

/-- `top_gap_themes` (lines 708-713): the ten most common lower-cased
keywords of the gap bucket. -/
def topGapThemes (gap_entries : List SimilarityEntry) : List (String × ℕ) :=
  mostCommon 10 (gap_entries.flatMap fun entry =>
    (entry.keywords.filter (· ≠ "")).map pyLower)

/-- One element of `opportunity_map`. -/
structure OpportunityNote where
  trend : String
  best_match_product : String
  business : String
  similarity : ℝ
  note : String

/-- `opportunity_map` (lines 720-735): a human-readable note for each of
the first eight gap entries, defaulting the keyword phrase to
`"new proof points"`. -/
def opportunityMapOf (gap_entries : List SimilarityEntry) : List OpportunityNote :=
  (gap_entries.take 8).map fun entry =>
    let keywords := pyOrS (pyJoin ", " entry.keywords) "new proof points"
    { trend := entry.trend
      best_match_product := entry.best_match_product
      business := entry.business
      similarity := entry.similarity
      note := "Extend " ++ entry.best_match_product ++ " (" ++ entry.business ++
        ") to address " ++ entry.trend ++ " by emphasizing " ++ keywords ++ "." }

/-! ## The orchestrator (`run_gap_analysis`, lines 617-756)

The deterministic payload of the returned dict.  The two LLM-backed fields
(`insights`, `product_proposals`) and the purely descriptive catalog
statistics (`catalog_stats`, `description_quality`, `keyword_coverage`,
`opportunity_summary`, `action_plan`, `trend_confidence`) are external or
untouched by every claim and are omitted from the embedding. -/

/-- The embedded part of `catalog_report`. -/
structure CatalogReport where
  pricing_analysis : PricingReport
  trend_alignment : List AlignmentEntry

/-- The embedded part of the success result of `run_gap_analysis`. -/
structure GapResult where
  similarity_map : List SimilarityEntry
  coverage : CoverageBuckets
  coverage_summary : CoverageSummary
  top_gap_themes : List (String × ℕ)
  opportunity_map : List OpportunityNote
  catalog_report : CatalogReport

/-- The `ValueError` message of the insufficient-data guard (line 657). -/
def insufficientDataMsg : String :=
  "Insufficient data. Provide at least one product and one trend entry."

open Classical in
/-- `run_gap_analysis` on caller-supplied trends (the Firecrawl auto-fetch
path needs `auto_trend_keywords` and is external): flatten the catalog,
build the catalog report, prepare both vector sets through the embedding
capability, fail with the insufficient-data `ValueError` when either set is
empty (no partial result escapes, modelled by `Except`), otherwise run the
similarity loop and assemble the result. -/
noncomputable def run_gap_analysis (embed : List String → List Vec)
    (thresholds : SimilarityThresholds) (businesses : List InputBusiness)
    (trends : List RawTrend) : Except String GapResult :=
  let flat_products := _flatten_products businesses
  let catalog_report : CatalogReport :=
    { pricing_analysis := _pricing_analysis flat_products
      trend_alignment := _simple_trend_alignment flat_products trends }
  let product_vectors := _prepare_product_vectors embed businesses
  let trend_vectors := _prepare_trend_vectors embed trends
  if product_vectors = [] ∨ trend_vectors = [] then
    .error insufficientDataMsg
  else
    let pass := similarityPass thresholds trend_vectors product_vectors
    .ok { similarity_map := pass.1
          coverage := pass.2
          coverage_summary := coverageSummaryOf pass.2
          top_gap_themes := topGapThemes pass.2.gap
          opportunity_map := opportunityMapOf pass.2.gap
          catalog_report := catalog_report }

/-! ## Bridge lemmas: the numerator/denominator forms equal the field
operations of `ℚ`. -/

theorem qadd_eq (a b : ℚ) : qadd a b = a + b := by
  rw [qadd, Rat.divInt_eq_div]
  have ha : ((a.den : ℚ)) ≠ 0 := Nat.cast_ne_zero.mpr a.den_nz
  have hb : ((b.den : ℚ)) ≠ 0 := Nat.cast_ne_zero.mpr b.den_nz
  have han : (a.num : ℚ) = a * a.den := (div_eq_iff ha).mp (Rat.num_div_den a)
  have hbn : (b.num : ℚ) = b * b.den := (div_eq_iff hb).mp (Rat.num_div_den b)
  push_cast
  rw [div_eq_iff (by exact mul_ne_zero ha hb), han, hbn]
  ring

theorem qmul_eq (a b : ℚ) : qmul a b = a * b := by
  rw [qmul, Rat.divInt_eq_div]
  have ha : ((a.den : ℚ)) ≠ 0 := Nat.cast_ne_zero.mpr a.den_nz
  have hb : ((b.den : ℚ)) ≠ 0 := Nat.cast_ne_zero.mpr b.den_nz
  have han : (a.num : ℚ) = a * a.den := (div_eq_iff ha).mp (Rat.num_div_den a)
  have hbn : (b.num : ℚ) = b * b.den := (div_eq_iff hb).mp (Rat.num_div_den b)
  push_cast
  rw [div_eq_iff (by exact mul_ne_zero ha hb), han, hbn]
  ring

theorem qdiv_eq (a b : ℚ) : qdiv a b = a / b := by
  rcases eq_or_ne b 0 with hb0 | hb0
  · subst hb0
    simp [qdiv, Rat.divInt_eq_div]
  · rw [qdiv, Rat.divInt_eq_div]
    have ha : ((a.den : ℚ)) ≠ 0 := Nat.cast_ne_zero.mpr a.den_nz
    have hb : ((b.den : ℚ)) ≠ 0 := Nat.cast_ne_zero.mpr b.den_nz
    have hbn' : (b.num : ℚ) ≠ 0 := by
      simpa [Rat.num_eq_zero] using hb0
    have han : (a.num : ℚ) = a * a.den := (div_eq_iff ha).mp (Rat.num_div_den a)
    have hbn : (b.num : ℚ) = b * b.den := (div_eq_iff hb).mp (Rat.num_div_den b)
    push_cast
    rw [div_eq_iff (by exact mul_ne_zero ha hbn')]
    field_simp
    rw [han, hbn]
    ring

theorem qdivNat_eq (m n : ℕ) : qdivNat m n = (m : ℚ) / n := by
  rw [qdivNat, Rat.divInt_eq_div]
  push_cast
  rfl

theorem qsum_eq (l : List ℚ) : qsum l = l.sum := by
  induction l with
  | nil => rfl
  | cons x xs ih => rw [qsum, List.foldr_cons, qadd_eq, List.sum_cons, ← qsum, ih]

theorem roundHalfUp_eq (x : ℚ) : roundHalfUp x = round x := by
  have hden : (0 : ℤ) < 2 * (x.den : ℤ) := by positivity
  have hx : x + 1 / 2 = Rat.divInt (2 * x.num + x.den) (2 * x.den) := by
    rw [Rat.divInt_eq_div]
    have ha : ((x.den : ℚ)) ≠ 0 := Nat.cast_ne_zero.mpr x.den_nz
    have han : (x.num : ℚ) = x * x.den := (div_eq_iff ha).mp (Rat.num_div_den x)
    push_cast
    rw [eq_div_iff (by positivity), han]
    ring
  have hfl : ⌊Rat.divInt (2 * x.num + x.den) (2 * x.den)⌋ =
      (2 * x.num + x.den) / ((2 * x.den : ℕ) : ℤ) := by
    rw [← Rat.floor_intCast_div_natCast (2 * x.num + x.den) (2 * x.den),
      Rat.divInt_eq_div]
    norm_num
  rw [round_eq, hx, hfl, roundHalfUp,
    Int.fdiv_eq_ediv _ (by positivity)]
  norm_num

theorem pyInt_eq_floor (x : ℚ) (hx : 0 ≤ x) : pyInt x = ⌊x⌋ := by
  rw [pyInt, Rat.floor_def, Int.tdiv_eq_ediv (Rat.num_nonneg.mpr hx) (by positivity)]

/-! ## C1: threshold classification -/

/-- C1 counterexample: the claim quantifies over all configured thresholds,
but with `covered_threshold = 0.3` and `weak_threshold = 0.5` the score
`0.4` satisfies `s < weak_threshold`, so the claim demands `"gap"`, while
`_categorize` returns `"covered"`. -/
theorem C1_counterexample :
    _categorize ⟨0.3, 0.5⟩ 0.4 = "covered" ∧ (0.4 : ℝ) < 0.5 ∧ "covered" ≠ "gap" := by
  refine ⟨?_, by norm_num, by decide⟩
  rw [_categorize, if_pos (by norm_num : (0.4 : ℝ) ≥ (SimilarityThresholds.mk 0.3 0.5).covered)]

/-- C1 (amended): whenever the configured thresholds satisfy
`weak_threshold ≤ covered_threshold` — as the defaults 0.4 ≤ 0.65 do —
`_categorize` returns `"covered"` iff `score ≥ covered_threshold`, `"gap"`
iff `score < weak_threshold`, and `"weak"` otherwise, with scores exactly
at a threshold landing on the inclusive (higher) side. -/
theorem C1_amended_classification :
    (∀ (th : SimilarityThresholds) (s : ℝ), th.weak ≤ th.covered →
      ((_categorize th s = "covered" ↔ th.covered ≤ s) ∧
       (_categorize th s = "gap" ↔ s < th.weak) ∧
       (_categorize th s = "weak" ↔ th.weak ≤ s ∧ s < th.covered))) ∧
    SIMILARITY_THRESHOLDS.weak ≤ SIMILARITY_THRESHOLDS.covered := by
  constructor
  · intro th s hws
    rw [_categorize]
    rcases le_or_lt th.covered s with h1 | h1
    · rw [if_pos h1]
      exact ⟨⟨fun _ => h1, fun _ => rfl⟩,
        ⟨fun hx => absurd hx (by decide), fun hx => absurd hx (not_lt.mpr (hws.trans h1))⟩,
        ⟨fun hx => absurd hx (by decide), fun hx => absurd hx.2 (not_lt.mpr h1)⟩⟩
    · rw [if_neg (not_le.mpr h1)]
      rcases le_or_lt th.weak s with h2 | h2
      · rw [if_pos h2]
        exact ⟨⟨fun hx => absurd hx (by decide), fun hx => absurd hx (not_le.mpr h1)⟩,
          ⟨fun hx => absurd hx (by decide), fun hx => absurd hx (not_lt.mpr h2)⟩,
          ⟨fun _ => ⟨h2, h1⟩, fun _ => rfl⟩⟩
      · rw [if_neg (not_le.mpr h2)]
        exact ⟨⟨fun hx => absurd hx (by decide),
            fun hx => absurd hx (not_le.mpr (h2.trans_le hws))⟩,
          ⟨fun _ => h2, fun _ => rfl⟩,
          ⟨fun hx => absurd hx (by decide), fun hx => absurd hx.1 (not_le.mpr h2)⟩⟩
  · rw [SIMILARITY_THRESHOLDS]
    norm_num

/-- C1 witness: the amended classification applied at the concrete
thresholds `⟨1, 0⟩` and score `1`. -/
theorem C1_witness :
    ((0 : ℝ) ≤ 1) ∧
    ((_categorize ⟨1, 0⟩ 1 = "covered" ↔ (1 : ℝ) ≤ 1) ∧
     (_categorize ⟨1, 0⟩ 1 = "gap" ↔ (1 : ℝ) < 0) ∧
     (_categorize ⟨1, 0⟩ 1 = "weak" ↔ (0 : ℝ) ≤ 1 ∧ (1 : ℝ) < 1)) :=
  ⟨zero_le_one, C1_amended_classification.1 ⟨1, 0⟩ 1 zero_le_one⟩

/-! ## C9: normalized trend keywords -/

/-- C9 counterexample: a raw record carrying the same keyword under
`keywords` and `semantic_keywords` normalizes to the keyword list
`["a", "a"]` — the value `"a"` appears twice, so the list is not
deduplicated. -/
theorem C9_counterexample :
    ((_normalize_trend_record
        { trend := some "t", keywords := some ["a"], semantic_keywords := some ["a"] }).map
      TrendRecord.keywords) = some ["a", "a"] ∧
    (["a", "a"] : List String).count "a" = 2 := by
  constructor
  · rfl
  · decide

/-- C9 (amended): the normalized keyword list is the concatenation, in
source field order, of the candidate upstream keyword fields, each value
stripped and empty values dropped; duplicates are preserved (no
deduplication happens). -/
theorem C9_amended_keywords (raw : RawTrendRec) (rec : TrendRecord)
    (h : _normalize_trend_record raw = some rec) :
    rec.keywords =
      (((rawKeywordFields raw).flatMap fun f => f.getD []).map pyStrip).filter (· ≠ "") := by
  rw [_normalize_trend_record] at h
  rcases hft : firstTruthy [raw.trend, raw.title, raw.core_concept, raw.industry, raw.name]
    with _ | title
  · rw [hft] at h
    exact absurd h (by simp)
  · rw [hft] at h
    rw [Option.some.injEq] at h
    rw [← h]

/-- C9 witness: the amended statement at the counterexample record. -/
theorem C9_witness :
    _normalize_trend_record
        { trend := some "t", keywords := some ["a"], semantic_keywords := some ["a"] } =
      some ⟨"t", "", ["a", "a"]⟩ ∧
    (⟨"t", "", ["a", "a"]⟩ : TrendRecord).keywords =
      (((rawKeywordFields
          { trend := some "t", keywords := some ["a"],
            semantic_keywords := some ["a"] }).flatMap fun f => f.getD []).map
        pyStrip).filter (· ≠ "") :=
  ⟨by rfl, C9_amended_keywords _ _ (by rfl)⟩

/-! ## C7: price parsing -/

/-- C7: price parsing is total and never raises — absent and empty inputs
parse to `none`; the currency tokens and the leading `From` are stripped
(`"From $25"` parses to `25`); only the first whitespace-delimited token is
parsed (`"$19.99 / month"` parses to `19.99`); an unparsable remainder
(`"LBP 1,500"`, `"abc"`) yields `none`; and products without a parsed
price are invisible to the pricing statistics. -/
theorem C7_price_parsing :
    _parse_price none = none ∧
    _parse_price (some "") = none ∧
    _parse_price (some "From $25") = some 25 ∧
    _parse_price (some "$19.99 / month") = some (Rat.divInt 1999 100) ∧
    _parse_price (some "LBP 1,500") = none ∧
    _parse_price (some "abc") = none ∧
    ∀ fps : List FlatProduct,
      _pricing_analysis fps = _pricing_analysis (fps.filter fun p => p.price_numeric.isSome) := by
  refine ⟨rfl, rfl, by rfl, by rfl, by rfl, by rfl, ?_⟩
  intro fps
  have hp : (fps.filter fun p => p.price_numeric.isSome).filterMap (·.price_numeric) =
      fps.filterMap (·.price_numeric) := by
    induction fps with
    | nil => rfl
    | cons p ps ih =>
      rcases hpn : p.price_numeric with _ | v
      · simp [List.filter_cons, List.filterMap_cons, hpn, ih]
      · simp [List.filter_cons, List.filterMap_cons, hpn, ih]
  rw [_pricing_analysis, _pricing_analysis, hp]

/-! ## C6: pricing quartiles -/

theorem quantile_eq_get (prices : List ℚ) (q : ℚ) (hq0 : 0 ≤ q) (hq1 : q ≤ 1)
    (hne : prices ≠ []) :
    (⌊q * ((prices.length - 1 : ℕ) : ℚ)⌋).toNat < prices.length ∧
    quantile prices q =
      prices.get? (⌊q * ((prices.length - 1 : ℕ) : ℚ)⌋).toNat := by
  have hc0 : (0 : ℚ) ≤ ((prices.length - 1 : ℕ) : ℚ) := Nat.cast_nonneg _
  have hmul : q * ((prices.length - 1 : ℕ) : ℚ) ≤ ((prices.length - 1 : ℕ) : ℚ) :=
    mul_le_of_le_one_left hc0 hq1
  have hfl : ⌊q * ((prices.length - 1 : ℕ) : ℚ)⌋ ≤ (prices.length - 1 : ℕ) := by
    calc ⌊q * ((prices.length - 1 : ℕ) : ℚ)⌋ ≤ ⌊((prices.length - 1 : ℕ) : ℚ)⌋ :=
          Int.floor_le_floor hmul
      _ = ((prices.length - 1 : ℕ) : ℤ) := Int.floor_natCast _
  have hn : 0 < prices.length := List.length_pos.mpr hne
  have hidx : (⌊q * ((prices.length - 1 : ℕ) : ℚ)⌋).toNat < prices.length := by
    have := Int.toNat_le.mpr hfl
    omega
  refine ⟨hidx, ?_⟩
  rw [quantile, if_neg hne, qmul_eq,
    pyInt_eq_floor _ (mul_nonneg hq0 hc0)]

/-- C6 counterexample: a catalog whose single product is priced `"5.126"`
reports `q1 = 5.13`, not the sorted-list element `5.126` itself — the
source rounds each quartile to two decimals, so "the quartile equals the
element at index `floor(q * (n-1))`" fails whenever that element has more
than two decimals. -/
theorem C6_counterexample :
    (_pricing_analysis (_flatten_products
        [{ name := some "Acme",
           products := [{ name := some "P", pricing := some "5.126" }] }])).q1 =
      some (Rat.divInt 513 100) ∧
    _parse_price (some "5.126") = some (Rat.divInt 5126 1000) ∧
    sortAsc [Rat.divInt 5126 1000] = [Rat.divInt 5126 1000] ∧
    Rat.divInt 513 100 ≠ Rat.divInt 5126 1000 :=
  ⟨by rfl, by rfl, by rfl, by decide⟩

/-- C6 (amended): with at least one parsed price, each reported quartile
`q` equals the element at index `floor(q * (n-1))` of the sorted price
list — nearest rank, no interpolation — *rounded to two decimal places*;
in particular for prices `[10, 20, 30, 40]`, `q1 = 10` and `q3 = 30`; and
with no parsed price the report is `{has_pricing: false}`. -/
theorem C6_amended_quartiles :
    (∀ fps : List FlatProduct,
      (fps.filterMap (·.price_numeric) = [] →
        _pricing_analysis fps = { has_pricing := false }) ∧
      (∀ sorted, sorted = sortAsc (fps.filterMap (·.price_numeric)) → sorted ≠ [] →
        (⌊(1 / 4 : ℚ) * ((sorted.length - 1 : ℕ) : ℚ)⌋).toNat < sorted.length ∧
        (⌊(3 / 4 : ℚ) * ((sorted.length - 1 : ℕ) : ℚ)⌋).toNat < sorted.length ∧
        (_pricing_analysis fps).q1 =
          (sorted.get? (⌊(1 / 4 : ℚ) * ((sorted.length - 1 : ℕ) : ℚ)⌋).toNat).map (roundTo 2) ∧
        (_pricing_analysis fps).q3 =
          (sorted.get? (⌊(3 / 4 : ℚ) * ((sorted.length - 1 : ℕ) : ℚ)⌋).toNat).map (roundTo 2))) ∧
    (_pricing_analysis
        [{ business := "B", name := "P1", description := "", keywords := [],
           pricing_raw := none, price_numeric := some 10 },
         { business := "B", name := "P2", description := "", keywords := [],
           pricing_raw := none, price_numeric := some 20 },
         { business := "B", name := "P3", description := "", keywords := [],
           pricing_raw := none, price_numeric := some 30 },
         { business := "B", name := "P4", description := "", keywords := [],
           pricing_raw := none, price_numeric := some 40 }]).q1 = some 10 ∧
    (_pricing_analysis
        [{ business := "B", name := "P1", description := "", keywords := [],
           pricing_raw := none, price_numeric := some 10 },
         { business := "B", name := "P2", description := "", keywords := [],
           pricing_raw := none, price_numeric := some 20 },
         { business := "B", name := "P3", description := "", keywords := [],
           pricing_raw := none, price_numeric := some 30 },
         { business := "B", name := "P4", description := "", keywords := [],
           pricing_raw := none, price_numeric := some 40 }]).q3 = some 30 := by
  refine ⟨?_, by rfl, by rfl⟩
  intro fps
  constructor
  · intro hempty
    rw [_pricing_analysis, hempty, if_pos rfl]
  · intro sorted hsorted hne
    have hpne : fps.filterMap (·.price_numeric) ≠ [] := by
      intro hc
      apply hne
      rw [hsorted, hc]
      rfl
    have h14 := quantile_eq_get sorted (1 / 4) (by norm_num) (by norm_num) hne
    have h34 := quantile_eq_get sorted (3 / 4) (by norm_num) (by norm_num) hne
    have hq1 : (_pricing_analysis fps).q1 =
        (quantile (sortAsc (fps.filterMap (·.price_numeric))) (Rat.divInt 1 4)).map
          (roundTo 2) := by
      simp only [_pricing_analysis]
      rw [if_neg hpne]
    have hq3 : (_pricing_analysis fps).q3 =
        (quantile (sortAsc (fps.filterMap (·.price_numeric))) (Rat.divInt 3 4)).map
          (roundTo 2) := by
      simp only [_pricing_analysis]
      rw [if_neg hpne]
    have h14' : Rat.divInt 1 4 = (1 / 4 : ℚ) := by
      rw [Rat.divInt_eq_div]
      norm_num
    have h34' : Rat.divInt 3 4 = (3 / 4 : ℚ) := by
      rw [Rat.divInt_eq_div]
      norm_num
    refine ⟨h14.1, h34.1, ?_, ?_⟩
    · rw [hq1, ← hsorted, h14', h14.2]
    · rw [hq3, ← hsorted, h34', h34.2]

/-- C6 witness: the amended statement at the four-price catalog
`[10, 20, 30, 40]`. -/
theorem C6_witness :
    ([(10 : ℚ), 20, 30, 40] = sortAsc (([
      { business := "B", name := "P1", description := "", keywords := [],
        pricing_raw := none, price_numeric := some 10 },
      { business := "B", name := "P2", description := "", keywords := [],
        pricing_raw := none, price_numeric := some 20 },
      { business := "B", name := "P3", description := "", keywords := [],
        pricing_raw := none, price_numeric := some 30 },
      { business := "B", name := "P4", description := "", keywords := [],
        pricing_raw := none, price_numeric := some 40 }] :
        List FlatProduct).filterMap (·.price_numeric))) ∧
    ([(10 : ℚ), 20, 30, 40] : List ℚ) ≠ [] ∧
    ((⌊(1 / 4 : ℚ) * ((([(10 : ℚ), 20, 30, 40] : List ℚ).length - 1 : ℕ) : ℚ)⌋).toNat <
        ([(10 : ℚ), 20, 30, 40] : List ℚ).length ∧
      (⌊(3 / 4 : ℚ) * ((([(10 : ℚ), 20, 30, 40] : List ℚ).length - 1 : ℕ) : ℚ)⌋).toNat <
        ([(10 : ℚ), 20, 30, 40] : List ℚ).length ∧
      (_pricing_analysis [
        { business := "B", name := "P1", description := "", keywords := [],
          pricing_raw := none, price_numeric := some 10 },
        { business := "B", name := "P2", description := "", keywords := [],
          pricing_raw := none, price_numeric := some 20 },
        { business := "B", name := "P3", description := "", keywords := [],
          pricing_raw := none, price_numeric := some 30 },
        { business := "B", name := "P4", description := "", keywords := [],
          pricing_raw := none, price_numeric := some 40 }]).q1 =
        (([(10 : ℚ), 20, 30, 40] : List ℚ).get?
          (⌊(1 / 4 : ℚ) * ((([(10 : ℚ), 20, 30, 40] : List ℚ).length - 1 : ℕ) : ℚ)⌋).toNat).map
          (roundTo 2) ∧
      (_pricing_analysis [
        { business := "B", name := "P1", description := "", keywords := [],
          pricing_raw := none, price_numeric := some 10 },
        { business := "B", name := "P2", description := "", keywords := [],
          pricing_raw := none, price_numeric := some 20 },
        { business := "B", name := "P3", description := "", keywords := [],
          pricing_raw := none, price_numeric := some 30 },
        { business := "B", name := "P4", description := "", keywords := [],
          pricing_raw := none, price_numeric := some 40 }]).q3 =
        (([(10 : ℚ), 20, 30, 40] : List ℚ).get?
          (⌊(3 / 4 : ℚ) * ((([(10 : ℚ), 20, 30, 40] : List ℚ).length - 1 : ℕ) : ℚ)⌋).toNat).map
          (roundTo 2)) :=
  ⟨by rfl, by decide,
    (C6_amended_quartiles.1 _).2 [(10 : ℚ), 20, 30, 40] (by rfl) (by decide)⟩

/-! ## C8: lexical trend alignment -/

theorem length_filterMap_eq_countP {α β : Type} (f : α → Option β) (l : List α) :
    (l.filterMap f).length = l.countP fun a => (f a).isSome := by
  induction l with
  | nil => rfl
  | cons a rest ih =>
    rw [List.filterMap_cons, List.countP_cons]
    rcases hfa : f a with _ | b
    · simp [hfa, ih]
    · simp [hfa, ih]

/-- C8 counterexample: with catalog `{alpha}` and the trend
`"alpha beta gamma"` (3 tokens, 1 match), the emitted `coverage_score` is
`round(1/3, 2) = 0.33`, which differs from the exact quotient `1/3` —
the module rounds the reported score to two decimals. -/
theorem C8_counterexample :
    (_simple_trend_alignment
        (_flatten_products
          [{ name := some "Biz", products := [{ name := some "alpha" }] }])
        [{ trend := some "alpha beta gamma" }]).map
      (fun e => (e.trend, e.coverage_score, e.matched_tokens, e.status)) =
      [("alpha beta gamma", Rat.divInt 33 100, ["alpha"], "gap")] ∧
    tokenize "alpha beta gamma" = ["alpha", "beta", "gamma"] ∧
    Rat.divInt 33 100 ≠ qdivNat 1 3 :=
  ⟨by rfl, by rfl, by decide⟩

/-- C8 (amended): every emitted entry comes from a trend of the input with
a truthy label and a non-empty token list `tokens` (the tokenization of its
label joined with its keywords); writing `matched` for the sublist of
`tokens` that occur in the catalog vocabulary, the entry reports exactly
`matched` as its matched tokens, its emitted `coverage_score` is the
quotient `matched.length / tokens.length` — a rational in `[0, 1]` —
*rounded to two decimal places*, and the classification applies the bands
to the unrounded quotient: covered iff it is `≥ 0.7`, weak_coverage iff it
is in `[0.4, 0.7)`, gap iff it is `< 0.4`.  Trends whose label is falsy or
whose token list is empty are skipped (exactly the usable trends produce
entries). -/
theorem C8_amended_alignment (fps : List FlatProduct) (ts : List RawTrend) :
    (∀ e ∈ _simple_trend_alignment fps ts, ∃ tr ∈ ts, ∃ label : String,
      pyOrOpt tr.trend tr.name = some label ∧ label ≠ "" ∧ e.trend = label ∧
      ∃ tokens matched : List String,
        tokens = tokenize (label ++ " " ++ pyJoin " " (tr.keywords.getD [])) ∧
        matched = tokens.filter (fun token => (catalogTokenList fps).count token ≠ 0) ∧
        tokens ≠ [] ∧
        e.matched_tokens = matched ∧
        e.coverage_score = roundTo 2 ((matched.length : ℚ) / (tokens.length : ℚ)) ∧
        0 ≤ (matched.length : ℚ) / (tokens.length : ℚ) ∧
        (matched.length : ℚ) / (tokens.length : ℚ) ≤ 1 ∧
        (e.status = "covered" ↔
          (7 : ℚ) / 10 ≤ (matched.length : ℚ) / (tokens.length : ℚ)) ∧
        (e.status = "weak_coverage" ↔
          (4 : ℚ) / 10 ≤ (matched.length : ℚ) / (tokens.length : ℚ) ∧
            (matched.length : ℚ) / (tokens.length : ℚ) < (7 : ℚ) / 10) ∧
        (e.status = "gap" ↔
          (matched.length : ℚ) / (tokens.length : ℚ) < (4 : ℚ) / 10)) ∧
    (_simple_trend_alignment fps ts).length = ts.countP fun tr =>
      match pyOrOpt tr.trend tr.name with
      | none => false
      | some label =>
        decide (label ≠ "") &&
          decide (tokenize (label ++ " " ++ pyJoin " " (tr.keywords.getD [])) ≠ []) := by
  have h710 : Rat.divInt 7 10 = (7 : ℚ) / 10 := by
    rw [Rat.divInt_eq_div]
    norm_num
  have h410 : Rat.divInt 4 10 = (4 : ℚ) / 10 := by
    rw [Rat.divInt_eq_div]
    norm_num
  constructor
  · intro e he
    simp only [_simple_trend_alignment, List.mem_filterMap] at he
    obtain ⟨tr, htr, hf⟩ := he
    split at hf
    · simp at hf
    · next label hlab =>
      split at hf
      · simp at hf
      · next hl0 =>
        split at hf
        · simp at hf
        · next htok =>
          rw [Option.some.injEq] at hf
          subst hf
          set tokens := tokenize (label ++ " " ++ pyJoin " " (tr.keywords.getD [])) with htokens
          set matched := tokens.filter
            (fun token => decide ((catalogTokenList fps).count token ≠ 0)) with hmatched
          have ht0 : 0 < tokens.length := List.length_pos.mpr htok
          have hmt : matched.length ≤ tokens.length := by
            rw [hmatched]
            exact List.length_filter_le _ _
          have htQ : (0 : ℚ) < (tokens.length : ℚ) := by exact_mod_cast ht0
          have hratio : qdivNat matched.length tokens.length =
              (matched.length : ℚ) / (tokens.length : ℚ) := qdivNat_eq _ _
          refine ⟨tr, htr, label, hlab, hl0, rfl, tokens, matched, htokens, hmatched,
            htok, rfl, ?_, ?_, ?_, ?_, ?_, ?_⟩
          · show roundTo 2 (qdivNat matched.length tokens.length) = _
            rw [hratio]
          · exact div_nonneg (Nat.cast_nonneg _) (Nat.cast_nonneg _)
          · rw [div_le_one htQ]
            exact_mod_cast hmt
          all_goals
            show (if qdivNat matched.length tokens.length ≥ Rat.divInt 7 10 then "covered"
              else if qdivNat matched.length tokens.length ≥ Rat.divInt 4 10 then
                "weak_coverage" else "gap") = _ ↔ _
          all_goals rw [hratio, h710, h410]
          all_goals
            rcases le_or_lt ((7 : ℚ) / 10) ((matched.length : ℚ) / (tokens.length : ℚ))
              with h7 | h7
          · rw [if_pos h7]
            exact ⟨fun _ => h7, fun _ => rfl⟩
          · rw [if_neg (not_le.mpr h7)]
            rcases le_or_lt ((4 : ℚ) / 10) ((matched.length : ℚ) / (tokens.length : ℚ))
              with h4 | h4
            · rw [if_pos h4]
              exact ⟨fun hx => absurd hx (by decide), fun hx => absurd hx (not_le.mpr h7)⟩
            · rw [if_neg (not_le.mpr h4)]
              exact ⟨fun hx => absurd hx (by decide),
                fun hx => absurd hx (not_le.mpr (h4.trans_le (by norm_num)))⟩
          · rw [if_pos h7]
            exact ⟨fun hx => absurd hx (by decide), fun hx => absurd h7 (not_le.mpr hx.2)⟩
          · rw [if_neg (not_le.mpr h7)]
            rcases le_or_lt ((4 : ℚ) / 10) ((matched.length : ℚ) / (tokens.length : ℚ))
              with h4 | h4
            · rw [if_pos h4]
              exact ⟨fun _ => ⟨h4, h7⟩, fun _ => rfl⟩
            · rw [if_neg (not_le.mpr h4)]
              exact ⟨fun hx => absurd hx (by decide), fun hx => absurd hx.1 (not_le.mpr h4)⟩
          · rw [if_pos h7]
            exact ⟨fun hx => absurd hx (by decide),
              fun hx => absurd h7 (not_le.mpr (hx.trans_le (by norm_num)))⟩
          · rw [if_neg (not_le.mpr h7)]
            rcases le_or_lt ((4 : ℚ) / 10) ((matched.length : ℚ) / (tokens.length : ℚ))
              with h4 | h4
            · rw [if_pos h4]
              exact ⟨fun hx => absurd hx (by decide), fun hx => absurd hx (not_lt.mpr h4)⟩
            · rw [if_neg (not_le.mpr h4)]
              exact ⟨fun _ => h4, fun _ => rfl⟩
  · simp only [_simple_trend_alignment]
    rw [length_filterMap_eq_countP]
    apply List.countP_congr
    intro tr _htr
    rcases hlab : pyOrOpt tr.trend tr.name with _ | label
    · simp [hlab]
    · by_cases hl0 : label = ""
      · simp [hlab, hl0]
      · by_cases htok : tokenize (label ++ " " ++ pyJoin " " (tr.keywords.getD [])) = []
        · simp [hlab, hl0, htok]
        · simp [hlab, hl0, htok]

/-- C8 witness: the amended statement at the single-product,
single-trend input of the counterexample. -/
theorem C8_witness :
    (⟨"alpha beta gamma", Rat.divInt 33 100, ["alpha"], "gap"⟩ : AlignmentEntry) ∈
      _simple_trend_alignment
        (_flatten_products
          [{ name := some "Biz", products := [{ name := some "alpha" }] }])
        [{ trend := some "alpha beta gamma" }] ∧
    (∃ tr ∈ ([{ trend := some "alpha beta gamma" }] : List RawTrend), ∃ label : String,
      pyOrOpt tr.trend tr.name = some label ∧ label ≠ "" ∧
      (⟨"alpha beta gamma", Rat.divInt 33 100, ["alpha"], "gap"⟩ :
        AlignmentEntry).trend = label ∧
      ∃ tokens matched : List String,
        tokens = tokenize (label ++ " " ++ pyJoin " " (tr.keywords.getD [])) ∧
        matched = tokens.filter (fun token =>
          (catalogTokenList (_flatten_products
            [{ name := some "Biz", products := [{ name := some "alpha" }] }])).count
              token ≠ 0) ∧
        tokens ≠ [] ∧
        (⟨"alpha beta gamma", Rat.divInt 33 100, ["alpha"], "gap"⟩ :
          AlignmentEntry).matched_tokens = matched ∧
        (⟨"alpha beta gamma", Rat.divInt 33 100, ["alpha"], "gap"⟩ :
          AlignmentEntry).coverage_score =
            roundTo 2 ((matched.length : ℚ) / (tokens.length : ℚ)) ∧
        0 ≤ (matched.length : ℚ) / (tokens.length : ℚ) ∧
        (matched.length : ℚ) / (tokens.length : ℚ) ≤ 1 ∧
        ((⟨"alpha beta gamma", Rat.divInt 33 100, ["alpha"], "gap"⟩ :
            AlignmentEntry).status = "covered" ↔
          (7 : ℚ) / 10 ≤ (matched.length : ℚ) / (tokens.length : ℚ)) ∧
        ((⟨"alpha beta gamma", Rat.divInt 33 100, ["alpha"], "gap"⟩ :
            AlignmentEntry).status = "weak_coverage" ↔
          (4 : ℚ) / 10 ≤ (matched.length : ℚ) / (tokens.length : ℚ) ∧
            (matched.length : ℚ) / (tokens.length : ℚ) < (7 : ℚ) / 10) ∧
        ((⟨"alpha beta gamma", Rat.divInt 33 100, ["alpha"], "gap"⟩ :
            AlignmentEntry).status = "gap" ↔
          (matched.length : ℚ) / (tokens.length : ℚ) < (4 : ℚ) / 10)) := by
  have hmem : (⟨"alpha beta gamma", Rat.divInt 33 100, ["alpha"], "gap"⟩ : AlignmentEntry) ∈
      _simple_trend_alignment
        (_flatten_products
          [{ name := some "Biz", products := [{ name := some "alpha" }] }])
        [{ trend := some "alpha beta gamma" }] := by
    rw [show _simple_trend_alignment
        (_flatten_products
          [{ name := some "Biz", products := [{ name := some "alpha" }] }])
        [{ trend := some "alpha beta gamma" }] =
      [⟨"alpha beta gamma", Rat.divInt 33 100, ["alpha"], "gap"⟩] from rfl]
    exact List.mem_singleton_self _
  exact ⟨hmem, (C8_amended_alignment _ _).1 _ hmem⟩

/-! ## C5: cosine similarity -/

theorem dotProduct_comm (a : Vec) : ∀ b : Vec, dotProduct a b = dotProduct b a := by
  induction a with
  | nil =>
    intro b
    cases b <;> rfl
  | cons x xs ih =>
    intro b
    cases b with
    | nil => rfl
    | cons y ys =>
      rw [dotProduct, dotProduct, ih, mul_comm]

theorem dotProduct_self_nonneg (a : Vec) : 0 ≤ dotProduct a a := by
  induction a with
  | nil => exact le_refl 0
  | cons x xs ih =>
    rw [dotProduct]
    exact add_nonneg (mul_self_nonneg x) ih

theorem dotProduct_sq_le (a : Vec) :
    ∀ b : Vec, (dotProduct a b) ^ 2 ≤ dotProduct a a * dotProduct b b := by
  induction a with
  | nil =>
    intro b
    cases b <;> simp [dotProduct]
  | cons x xs ih =>
    intro b
    cases b with
    | nil => simp [dotProduct]
    | cons y ys =>
      rw [dotProduct, dotProduct, dotProduct]
      have hA : 0 ≤ dotProduct xs xs := dotProduct_self_nonneg xs
      have hB : 0 ≤ dotProduct ys ys := dotProduct_self_nonneg ys
      have hd2 : (dotProduct xs ys) ^ 2 ≤ dotProduct xs xs * dotProduct ys ys := ih ys
      rcases eq_or_lt_of_le hB with hB0 | hBpos
      · have hd0 : dotProduct xs ys = 0 := by
          have h0 : (dotProduct xs ys) ^ 2 ≤ 0 := by
            rw [← hB0] at hd2
            simpa using hd2
          exact pow_eq_zero_iff (n := 2) (by norm_num) |>.mp
            (le_antisymm h0 (sq_nonneg _))
        rw [hd0, ← hB0]
        nlinarith [mul_nonneg hA (sq_nonneg y)]
      · nlinarith [sq_nonneg (x * dotProduct ys ys - y * dotProduct xs ys),
          mul_nonneg (le_of_lt hBpos) (sub_nonneg.mpr hd2),
          mul_nonneg (sq_nonneg y) (sub_nonneg.mpr hd2)]

theorem abs_dotProduct_le (a b : Vec) : |dotProduct a b| ≤ vecNorm a * vecNorm b := by
  rw [vecNorm, vecNorm, ← Real.sqrt_mul (dotProduct_self_nonneg a)]
  calc |dotProduct a b| = Real.sqrt ((dotProduct a b) ^ 2) := (Real.sqrt_sq_eq_abs _).symm
    _ ≤ Real.sqrt (dotProduct a a * dotProduct b b) := Real.sqrt_le_sqrt (dotProduct_sq_le a b)

theorem dotProduct_replicate_zero (n : ℕ) :
    dotProduct (List.replicate n (0 : ℝ)) (List.replicate n 0) = 0 := by
  induction n with
  | zero => rfl
  | succ k ih =>
    rw [List.replicate_succ, dotProduct, ih]
    ring

/-- C5: cosine similarity is symmetric, lies in `[-1, 1]`, is exactly `0`
whenever either argument has zero norm, and in particular is `0` against a
zero vector — never an error. -/
theorem C5_cosine_props (a b : Vec) (n : ℕ) :
    _cosine a b = _cosine b a ∧
    -1 ≤ _cosine a b ∧ _cosine a b ≤ 1 ∧
    (vecNorm a = 0 ∨ vecNorm b = 0 → _cosine a b = 0) ∧
    _cosine a (List.replicate n 0) = 0 := by
  have key : ∀ x y : Vec, _cosine x y =
      if vecNorm x * vecNorm y = 0 then 0
      else dotProduct x y / (vecNorm x * vecNorm y) := fun x y => rfl
  have hzero : ∀ x y : Vec, vecNorm x * vecNorm y = 0 → _cosine x y = 0 := by
    intro x y h
    rw [key, if_pos h]
  have habs : ∀ x y : Vec, |_cosine x y| ≤ 1 := by
    intro x y
    by_cases hd : vecNorm x * vecNorm y = 0
    · rw [hzero x y hd]
      norm_num
    · have hd' : 0 < vecNorm x * vecNorm y :=
        lt_of_le_of_ne (mul_nonneg (Real.sqrt_nonneg _) (Real.sqrt_nonneg _)) (Ne.symm hd)
      rw [key, if_neg hd, abs_div, abs_of_pos hd']
      rw [div_le_one hd']
      exact abs_dotProduct_le x y
  refine ⟨?_, (abs_le.mp (habs a b)).1, (abs_le.mp (habs a b)).2, ?_, ?_⟩
  · rw [key, key]
    by_cases hd : vecNorm a * vecNorm b = 0
    · rw [if_pos hd, if_pos (by rwa [mul_comm] at hd)]
    · rw [if_neg hd, if_neg (by rwa [mul_comm] at hd), dotProduct_comm a b,
        mul_comm (vecNorm a) (vecNorm b)]
  · intro h
    apply hzero
    rcases h with h | h
    · rw [h, zero_mul]
    · rw [h, mul_zero]
  · apply hzero
    have hz : vecNorm (List.replicate n (0 : ℝ)) = 0 := by
      rw [vecNorm, dotProduct_replicate_zero, Real.sqrt_zero]
    rw [hz, mul_zero]

/-- C5 witness: the zero-norm clause applied at `a = [0]`, `b = [1]`. -/
theorem C5_witness :
    (vecNorm [(0 : ℝ)] = 0 ∨ vecNorm [(1 : ℝ)] = 0) ∧ _cosine [(0 : ℝ)] [(1 : ℝ)] = 0 := by
  have h0 : vecNorm [(0 : ℝ)] = 0 := by
    rw [vecNorm, dotProduct]
    norm_num [dotProduct]
  exact ⟨Or.inl h0, (C5_cosine_props [(0 : ℝ)] [(1 : ℝ)] 0).2.2.2.1 (Or.inl h0)⟩

/-! ## The similarity loop: structural lemmas -/

theorem categorize_mem (th : SimilarityThresholds) (s : ℝ) :
    _categorize th s = "covered" ∨ _categorize th s = "weak" ∨ _categorize th s = "gap" := by
  rw [_categorize]
  split_ifs <;> simp

theorem passStep_none {th : SimilarityThresholds} {pvs : List ProductVector}
    {t : TrendVector} (acc : List SimilarityEntry × CoverageBuckets)
    (hb : bestMatch t pvs = none) : passStep th pvs acc t = acc := by
  rw [passStep, hb]

theorem passStep_some {th : SimilarityThresholds} {pvs : List ProductVector}
    {t : TrendVector} {p : ProductVector} {s : ℝ}
    (acc : List SimilarityEntry × CoverageBuckets)
    (hb : bestMatch t pvs = some (p, s)) :
    passStep th pvs acc t = (acc.1 ++ [mkEntry th t p s], addEntry acc.2 (mkEntry th t p s)) := by
  rw [passStep, hb]

theorem similarityPass_fst (th : SimilarityThresholds) (tvs : List TrendVector)
    (pvs : List ProductVector) :
    (similarityPass th tvs pvs).1 =
      tvs.filterMap fun t => (bestMatch t pvs).map fun pr => mkEntry th t pr.1 pr.2 := by
  have key : ∀ (l : List TrendVector) (acc : List SimilarityEntry × CoverageBuckets),
      (l.foldl (passStep th pvs) acc).1 =
        acc.1 ++ l.filterMap fun t => (bestMatch t pvs).map fun pr => mkEntry th t pr.1 pr.2 := by
    intro l
    induction l with
    | nil =>
      intro acc
      simp
    | cons t rest ih =>
      intro acc
      rw [List.foldl_cons, List.filterMap_cons]
      rcases hb : bestMatch t pvs with _ | pr
      · simp [passStep_none acc hb, ih, hb]
      · obtain ⟨p, s⟩ := pr
        simp [passStep_some acc hb, ih, hb]
  exact (key tvs ([], {})).trans (List.nil_append _)

theorem similarityPass_keywords (th : SimilarityThresholds) (tvs : List TrendVector)
    (pvs : List ProductVector) :
    ∀ e ∈ (similarityPass th tvs pvs).1, e.keywords = [] := by
  intro e he
  rw [similarityPass_fst, List.mem_filterMap] at he
  obtain ⟨t, _ht, hf⟩ := he
  rcases hb : bestMatch t pvs with _ | pr
  · rw [hb] at hf
    simp at hf
  · rw [hb] at hf
    rw [Option.map_some', Option.some.injEq] at hf
    rw [← hf]
    rfl

theorem similarityPass_categories (th : SimilarityThresholds) (tvs : List TrendVector)
    (pvs : List ProductVector) :
    ∀ e ∈ (similarityPass th tvs pvs).1,
      e.category = "covered" ∨ e.category = "weak" ∨ e.category = "gap" := by
  intro e he
  rw [similarityPass_fst, List.mem_filterMap] at he
  obtain ⟨t, _ht, hf⟩ := he
  rcases hb : bestMatch t pvs with _ | pr
  · rw [hb] at hf
    simp at hf
  · rw [hb] at hf
    rw [Option.map_some', Option.some.injEq] at hf
    rw [← hf]
    exact categorize_mem th pr.2

theorem similarityPass_buckets (th : SimilarityThresholds) (tvs : List TrendVector)
    (pvs : List ProductVector) :
    (similarityPass th tvs pvs).2.covered =
      (similarityPass th tvs pvs).1.filter (fun e => e.category = "covered") ∧
    (similarityPass th tvs pvs).2.weak =
      (similarityPass th tvs pvs).1.filter (fun e => e.category = "weak") ∧
    (similarityPass th tvs pvs).2.gap =
      (similarityPass th tvs pvs).1.filter (fun e => e.category = "gap") := by
  have key : ∀ (l : List TrendVector) (acc : List SimilarityEntry × CoverageBuckets),
      acc.2.covered = acc.1.filter (fun e => e.category = "covered") →
      acc.2.weak = acc.1.filter (fun e => e.category = "weak") →
      acc.2.gap = acc.1.filter (fun e => e.category = "gap") →
      (l.foldl (passStep th pvs) acc).2.covered =
        (l.foldl (passStep th pvs) acc).1.filter (fun e => e.category = "covered") ∧
      (l.foldl (passStep th pvs) acc).2.weak =
        (l.foldl (passStep th pvs) acc).1.filter (fun e => e.category = "weak") ∧
      (l.foldl (passStep th pvs) acc).2.gap =
        (l.foldl (passStep th pvs) acc).1.filter (fun e => e.category = "gap") := by
    intro l
    induction l with
    | nil =>
      intro acc h1 h2 h3
      exact ⟨h1, h2, h3⟩
    | cons t rest ih =>
      intro acc h1 h2 h3
      rw [List.foldl_cons]
      rcases hb : bestMatch t pvs with _ | pr
      · rw [passStep_none acc hb]
        exact ih acc h1 h2 h3
      · obtain ⟨p, s⟩ := pr
        rw [passStep_some acc hb]
        apply ih <;>
          (rcases categorize_mem th s with hc | hc | hc <;>
            simp [addEntry, mkEntry, hc, List.filter_append, h1, h2, h3])
  exact key tvs ([], {}) rfl rfl rfl

theorem three_filter_length (sm : List SimilarityEntry)
    (h : ∀ e ∈ sm, e.category = "covered" ∨ e.category = "weak" ∨ e.category = "gap") :
    (sm.filter (fun e => e.category = "covered")).length +
      (sm.filter (fun e => e.category = "weak")).length +
      (sm.filter (fun e => e.category = "gap")).length = sm.length := by
  induction sm with
  | nil => rfl
  | cons e rest ih =>
    have he := h e (List.mem_cons_self e rest)
    have hrest : ∀ x ∈ rest, x.category = "covered" ∨ x.category = "weak" ∨
        x.category = "gap" := fun x hx => h x (List.mem_cons_of_mem e hx)
    have ihr := ih hrest
    rw [List.filter_cons, List.filter_cons, List.filter_cons]
    rcases he with hc | hc | hc <;> simp [hc] <;> omega

/-! ## C2: the coverage buckets partition the similarity map -/

/-- C2: on every successful run, the three coverage buckets are exactly the
category-filtered sublists of the similarity map — every entry lands in the
single bucket named by its category, the buckets are pairwise disjoint by
construction, and the bucket sizes sum to the length of the similarity map
(one entry per usable trend). -/
theorem C2_partition (embed : List String → List Vec) (th : SimilarityThresholds)
    (businesses : List InputBusiness) (trends : List RawTrend) :
    match run_gap_analysis embed th businesses trends with
    | .error _ => True
    | .ok r =>
        r.coverage.covered = r.similarity_map.filter (fun e => e.category = "covered") ∧
        r.coverage.weak = r.similarity_map.filter (fun e => e.category = "weak") ∧
        r.coverage.gap = r.similarity_map.filter (fun e => e.category = "gap") ∧
        (∀ e ∈ r.similarity_map,
          e.category = "covered" ∨ e.category = "weak" ∨ e.category = "gap") ∧
        r.coverage.covered.length + r.coverage.weak.length + r.coverage.gap.length =
          r.similarity_map.length := by
  by_cases h : _prepare_product_vectors embed businesses = [] ∨
      _prepare_trend_vectors embed trends = []
  · simp only [run_gap_analysis, if_pos h]
  · simp only [run_gap_analysis, if_neg h]
    obtain ⟨h1, h2, h3⟩ := similarityPass_buckets th (_prepare_trend_vectors embed trends)
      (_prepare_product_vectors embed businesses)
    have hcats := similarityPass_categories th (_prepare_trend_vectors embed trends)
      (_prepare_product_vectors embed businesses)
    refine ⟨h1, h2, h3, hcats, ?_⟩
    rw [h1, h2, h3]
    exact three_filter_length _ hcats

/-! ## C4: the insufficient-data error -/

/-- C4: `run_gap_analysis` fails with the exact `ValueError` message
`"Insufficient data. Provide at least one product and one trend entry."`
precisely when, after normalization, the product-vector set or the
trend-vector set is empty; in particular it fails for `businesses = []`
and for `trends = []`.  The `Except` return type carries no payload on
failure, so no partial result reaches the caller. -/
theorem C4_insufficient_data (embed : List String → List Vec)
    (th : SimilarityThresholds) (businesses : List InputBusiness)
    (trends : List RawTrend) :
    ((run_gap_analysis embed th businesses trends =
        .error "Insufficient data. Provide at least one product and one trend entry.") ↔
      (_prepare_product_vectors embed businesses = [] ∨
        _prepare_trend_vectors embed trends = [])) ∧
    run_gap_analysis embed th [] trends =
      .error "Insufficient data. Provide at least one product and one trend entry." ∧
    run_gap_analysis embed th businesses [] =
      .error "Insufficient data. Provide at least one product and one trend entry." := by
  have hbe : _prepare_product_vectors embed [] = [] := rfl
  have hte : _prepare_trend_vectors embed [] = [] := rfl
  refine ⟨?_, ?_, ?_⟩
  · by_cases h : _prepare_product_vectors embed businesses = [] ∨
        _prepare_trend_vectors embed trends = []
    · simp [run_gap_analysis, insufficientDataMsg, h]
    · simp [run_gap_analysis, insufficientDataMsg, h]
  · simp [run_gap_analysis, insufficientDataMsg, hbe]
  · simp [run_gap_analysis, insufficientDataMsg, hte]

/-! ## C10: entry keywords are always empty -/

theorem flatMap_eq_nil_of_forall {α β : Type} (f : α → List β) (l : List α)
    (h : ∀ x ∈ l, f x = []) : l.flatMap f = [] := by
  induction l with
  | nil => rfl
  | cons a rest ih =>
    rw [List.flatMap_cons, h a (List.mem_cons_self a rest),
      ih fun x hx => h x (List.mem_cons_of_mem a hx)]
    rfl

/-- C10: on every successful run, each similarity entry carries the literal
empty keyword list; consequently `top_gap_themes` is always empty and every
`opportunity_map` note falls back to the default phrase, ending in
`"new proof points."`, regardless of the input trends' keywords. -/
theorem C10_empty_keywords (embed : List String → List Vec)
    (th : SimilarityThresholds) (businesses : List InputBusiness)
    (trends : List RawTrend) :
    match run_gap_analysis embed th businesses trends with
    | .error _ => True
    | .ok r =>
        (∀ e ∈ r.similarity_map, e.keywords = []) ∧
        r.top_gap_themes = [] ∧
        (∀ o ∈ r.opportunity_map, ∃ pre, o.note = pre ++ "new proof points.") := by
  by_cases h : _prepare_product_vectors embed businesses = [] ∨
      _prepare_trend_vectors embed trends = []
  · simp only [run_gap_analysis, if_pos h]
  · simp only [run_gap_analysis, if_neg h]
    set tvs := _prepare_trend_vectors embed trends
    set pvs := _prepare_product_vectors embed businesses
    have hkw := similarityPass_keywords th tvs pvs
    have hgap : ∀ e ∈ (similarityPass th tvs pvs).2.gap, e.keywords = [] := by
      intro e he
      rw [(similarityPass_buckets th tvs pvs).2.2] at he
      exact hkw e (List.mem_filter.mp he).1
    refine ⟨hkw, ?_, ?_⟩
    · rw [topGapThemes, flatMap_eq_nil_of_forall]
      · rfl
      · intro e he
        rw [hgap e he]
        rfl
    · intro o ho
      rw [opportunityMapOf, List.mem_map] at ho
      obtain ⟨e, he, hoe⟩ := ho
      have hek : e.keywords = [] := hgap e (List.mem_of_mem_take he)
      refine ⟨"Extend " ++ e.best_match_product ++ " (" ++ e.business ++
        ") to address " ++ e.trend ++ " by emphasizing ", ?_⟩
      rw [← hoe]
      show "Extend " ++ e.best_match_product ++ " (" ++ e.business ++
          ") to address " ++ e.trend ++ " by emphasizing " ++
          pyOrS (pyJoin ", " e.keywords) "new proof points" ++ "." = _
      rw [hek]
      rw [show pyOrS (pyJoin ", " ([] : List String)) "new proof points" =
        "new proof points" from rfl]
      rw [String.append_assoc]
      rfl

/-! ## C3: the best-match scan picks the first maximal product -/

theorem get_cons_zero_eq {α : Type} (a : α) (l : List α) (h : 0 < (a :: l).length) :
    (a :: l).get ⟨0, h⟩ = a := rfl

theorem get_cons_succ_eq {α : Type} (a : α) (l : List α) (k : ℕ)
    (h : k + 1 < (a :: l).length) :
    (a :: l).get ⟨k + 1, h⟩ = l.get ⟨k, Nat.lt_of_succ_lt_succ h⟩ := rfl

theorem bestStep_fold_spec (t : TrendVector) :
    ∀ (l : List ProductVector) (b : ProductVector) (sb : ℝ),
      ∃ c sc, l.foldl (bestStep t) (some (b, sb)) = some (c, sc) ∧
        ((c = b ∧ sc = sb ∧ ∀ x ∈ l, _cosine t.vector x.vector ≤ sb) ∨
         (∃ j, ∃ hj : j < l.length, c = l.get ⟨j, hj⟩ ∧
           sc = _cosine t.vector c.vector ∧ sb < sc ∧
           (∀ k, ∀ hk : k < l.length, _cosine t.vector (l.get ⟨k, hk⟩).vector ≤ sc) ∧
           (∀ k, ∀ hk : k < l.length, k < j →
             _cosine t.vector (l.get ⟨k, hk⟩).vector < sc))) := by
  intro l
  induction l with
  | nil =>
    intro b sb
    exact ⟨b, sb, rfl, Or.inl ⟨rfl, rfl, by simp⟩⟩
  | cons p ps ih =>
    intro b sb
    rw [List.foldl_cons]
    have hstep : bestStep t (some (b, sb)) p =
        if _cosine t.vector p.vector > sb then some (p, _cosine t.vector p.vector)
        else some (b, sb) := rfl
    by_cases hsc : _cosine t.vector p.vector > sb
    · rw [hstep, if_pos hsc]
      obtain ⟨c, sc, hr, hcase⟩ := ih p (_cosine t.vector p.vector)
      refine ⟨c, sc, hr, Or.inr ?_⟩
      rcases hcase with ⟨hc, hsceq, hall⟩ | ⟨j, hj, h1, h2, h3, h4, h5⟩
      · refine ⟨0, by simp, ?_, ?_, ?_, ?_, ?_⟩
        · rw [get_cons_zero_eq]
          exact hc
        · rw [hsceq, hc]
        · rw [hsceq]
          exact hsc
        · intro k hk
          cases k with
          | zero =>
            rw [get_cons_zero_eq, hsceq]
          | succ k =>
            rw [get_cons_succ_eq, hsceq]
            exact hall _ (List.get_mem ps _ _)
        · intro k hk hlt
          omega
      · refine ⟨j + 1, by simp only [List.length_cons]; omega, ?_, h2, lt_trans hsc h3,
          ?_, ?_⟩
        · rw [get_cons_succ_eq]
          exact h1
        · intro k hk
          cases k with
          | zero =>
            rw [get_cons_zero_eq]
            exact le_of_lt h3
          | succ k =>
            rw [get_cons_succ_eq]
            exact h4 k _
        · intro k hk hlt
          cases k with
          | zero =>
            rw [get_cons_zero_eq]
            exact h3
          | succ k =>
            rw [get_cons_succ_eq]
            exact h5 k _ (by omega)
    · rw [hstep, if_neg hsc]
      obtain ⟨c, sc, hr, hcase⟩ := ih b sb
      refine ⟨c, sc, hr, ?_⟩
      rcases hcase with ⟨hc, hsceq, hall⟩ | ⟨j, hj, h1, h2, h3, h4, h5⟩
      · refine Or.inl ⟨hc, hsceq, ?_⟩
        intro x hx
        rcases List.mem_cons.mp hx with hx0 | hx1
        · rw [hx0]
          exact le_of_not_lt hsc
        · exact hall x hx1
      · refine Or.inr ⟨j + 1, by simp only [List.length_cons]; omega, ?_, h2, h3, ?_, ?_⟩
        · rw [get_cons_succ_eq]
          exact h1
        · intro k hk
          cases k with
          | zero =>
            rw [get_cons_zero_eq]
            exact le_of_lt (lt_of_le_of_lt (le_of_not_lt hsc) h3)
          | succ k =>
            rw [get_cons_succ_eq]
            exact h4 k _
        · intro k hk hlt
          cases k with
          | zero =>
            rw [get_cons_zero_eq]
            exact lt_of_le_of_lt (le_of_not_lt hsc) h3
          | succ k =>
            rw [get_cons_succ_eq]
            exact h5 k _ (by omega)

theorem bestMatch_spec (t : TrendVector) (pvs : List ProductVector) (h : pvs ≠ []) :
    ∃ j, ∃ hj : j < pvs.length,
      bestMatch t pvs = some (pvs.get ⟨j, hj⟩, _cosine t.vector (pvs.get ⟨j, hj⟩).vector) ∧
      (∀ k, ∀ hk : k < pvs.length, _cosine t.vector (pvs.get ⟨k, hk⟩).vector ≤
        _cosine t.vector (pvs.get ⟨j, hj⟩).vector) ∧
      (∀ k, ∀ hk : k < pvs.length, k < j → _cosine t.vector (pvs.get ⟨k, hk⟩).vector <
        _cosine t.vector (pvs.get ⟨j, hj⟩).vector) := by
  cases pvs with
  | nil => exact absurd rfl h
  | cons p ps =>
    have hunfold : bestMatch t (p :: ps) =
        ps.foldl (bestStep t) (some (p, _cosine t.vector p.vector)) := rfl
    obtain ⟨c, sc, hr, hcase⟩ := bestStep_fold_spec t ps p (_cosine t.vector p.vector)
    rcases hcase with ⟨hc, hsceq, hall⟩ | ⟨j, hj, h1, h2, h3, h4, h5⟩
    · refine ⟨0, by simp, ?_, ?_, ?_⟩
      · rw [hunfold, hr, hc, hsceq, get_cons_zero_eq]
      · intro k hk
        rw [get_cons_zero_eq]
        cases k with
        | zero =>
          rw [get_cons_zero_eq]
        | succ k =>
          rw [get_cons_succ_eq]
          exact hall _ (List.get_mem ps _ _)
      · intro k hk hlt
        omega
    · have hc2 : sc = _cosine t.vector (ps.get ⟨j, hj⟩).vector := by
        rw [h2, h1]
      refine ⟨j + 1, by simp only [List.length_cons]; omega, ?_, ?_, ?_⟩
      · rw [hunfold, hr, get_cons_succ_eq, h1, hc2]
      · intro k hk
        rw [get_cons_succ_eq, ← hc2]
        cases k with
        | zero =>
          rw [get_cons_zero_eq]
          exact le_of_lt h3
        | succ k =>
          rw [get_cons_succ_eq]
          exact h4 k _
      · intro k hk hlt
        rw [get_cons_succ_eq, ← hc2]
        cases k with
        | zero =>
          rw [get_cons_zero_eq]
          exact h3
        | succ k =>
          rw [get_cons_succ_eq]
          exact h5 k _ (by omega)

theorem forall2_map_trend (tvs : List TrendVector) (sm : List SimilarityEntry)
    (hfa : List.Forall₂ (fun t e => e.trend = t.name) tvs sm) :
    sm.map (fun e => e.trend) = tvs.map (fun t => t.name) := by
  induction hfa with
  | nil => rfl
  | cons h₁ _ ih => rw [List.map_cons, List.map_cons, h₁, ih]

/-- C3: when the product list is non-empty, the similarity map carries the
trends in input order (one entry per trend, pairwise by `Forall₂`), each
entry names its trend, and each entry's `best_match_product` is a product
of maximal cosine similarity to that trend such that every earlier product
has strictly smaller similarity — ties are broken in favour of the
first-seen product. -/
theorem C3_best_match (th : SimilarityThresholds) (tvs : List TrendVector)
    (pvs : List ProductVector) (h : pvs ≠ []) :
    ((similarityPass th tvs pvs).1.map (fun e => e.trend) =
      tvs.map (fun t => t.name)) ∧
    List.Forall₂ (fun (t : TrendVector) (e : SimilarityEntry) =>
      e.trend = t.name ∧
      ∃ j, ∃ hj : j < pvs.length,
        e.best_match_product = (pvs.get ⟨j, hj⟩).product ∧
        (∀ k, ∀ hk : k < pvs.length, _cosine t.vector (pvs.get ⟨k, hk⟩).vector ≤
          _cosine t.vector (pvs.get ⟨j, hj⟩).vector) ∧
        (∀ k, ∀ hk : k < pvs.length, k < j →
          _cosine t.vector (pvs.get ⟨k, hk⟩).vector <
            _cosine t.vector (pvs.get ⟨j, hj⟩).vector))
      tvs (similarityPass th tvs pvs).1 := by
  have hfa : List.Forall₂ (fun (t : TrendVector) (e : SimilarityEntry) =>
      e.trend = t.name ∧
      ∃ j, ∃ hj : j < pvs.length,
        e.best_match_product = (pvs.get ⟨j, hj⟩).product ∧
        (∀ k, ∀ hk : k < pvs.length, _cosine t.vector (pvs.get ⟨k, hk⟩).vector ≤
          _cosine t.vector (pvs.get ⟨j, hj⟩).vector) ∧
        (∀ k, ∀ hk : k < pvs.length, k < j →
          _cosine t.vector (pvs.get ⟨k, hk⟩).vector <
            _cosine t.vector (pvs.get ⟨j, hj⟩).vector))
      tvs (similarityPass th tvs pvs).1 := by
    rw [similarityPass_fst]
    induction tvs with
    | nil => exact List.Forall₂.nil
    | cons t rest ih =>
      obtain ⟨j, hj, hbm, hmax, hfirst⟩ := bestMatch_spec t pvs h
      simp only [List.filterMap_cons, hbm, Option.map_some']
      exact List.Forall₂.cons ⟨rfl, j, hj, rfl, hmax, hfirst⟩ ih
  exact ⟨forall2_map_trend tvs _ (hfa.imp fun a b hab => hab.1), hfa⟩

/-- C3 witness: a one-trend, one-product instance. -/
theorem C3_witness :
    ([⟨"B", "P", "", [1]⟩] : List ProductVector) ≠ [] ∧
    (((similarityPass SIMILARITY_THRESHOLDS [⟨"T", "", "", "", [1]⟩]
        [⟨"B", "P", "", [1]⟩]).1.map (fun e => e.trend) =
      ([⟨"T", "", "", "", [1]⟩] : List TrendVector).map (fun t => t.name)) ∧
    List.Forall₂ (fun (t : TrendVector) (e : SimilarityEntry) =>
      e.trend = t.name ∧
      ∃ j, ∃ hj : j < ([⟨"B", "P", "", [1]⟩] : List ProductVector).length,
        e.best_match_product =
          (([⟨"B", "P", "", [1]⟩] : List ProductVector).get ⟨j, hj⟩).product ∧
        (∀ k, ∀ hk : k < ([⟨"B", "P", "", [1]⟩] : List ProductVector).length,
          _cosine t.vector
              (([⟨"B", "P", "", [1]⟩] : List ProductVector).get ⟨k, hk⟩).vector ≤
            _cosine t.vector
              (([⟨"B", "P", "", [1]⟩] : List ProductVector).get ⟨j, hj⟩).vector) ∧
        (∀ k, ∀ hk : k < ([⟨"B", "P", "", [1]⟩] : List ProductVector).length, k < j →
          _cosine t.vector
              (([⟨"B", "P", "", [1]⟩] : List ProductVector).get ⟨k, hk⟩).vector <
            _cosine t.vector
              (([⟨"B", "P", "", [1]⟩] : List ProductVector).get ⟨j, hj⟩).vector))
      [⟨"T", "", "", "", [1]⟩]
      (similarityPass SIMILARITY_THRESHOLDS [⟨"T", "", "", "", [1]⟩]
        [⟨"B", "P", "", [1]⟩]).1) :=
  ⟨by simp, C3_best_match SIMILARITY_THRESHOLDS [⟨"T", "", "", "", [1]⟩]
    [⟨"B", "P", "", [1]⟩] (by simp)⟩

end GapAnalysis
